import Mathlib

/-!
Shallow embedding of `er_scarecrow_upload/upload.py` (the remote folder
synchronization engine): the retry classification and policy, the
`DriveService` remote-call wrappers over a modelled remote store, the folder
resolver with its cache, the create-vs-update file upload decision, the
hierarchy walker and the archive materializer.

Modelling conventions:
* the Google Drive backend is a list of items (`Item`), each with an
  identifier, a name, a single parent identifier, a folder flag and a
  trashed flag; a `list` call filters this list in order and truncates to
  the requested page size, so "the first match" is the item found by a
  `pageSize=1` query;
* every call that reaches the remote client appends an `Event` to a trace,
  which lets call-counting properties (duplicate creations, cache hits,
  dry-run short-circuits) be stated as facts about the trace;
* Python exceptions are values of an inductive type and fallible code
  returns `Except`;
* machine-level concerns (HTTP transport, media streams) are out of scope:
  an upload carries only the metadata the code inspects.
-/

namespace ErScarecrow

/-- `RETRYABLE_STATUS = {429, 500, 502, 503, 504}` from upload.py. -/
def RETRYABLE_STATUS : List Nat := [429, 500, 502, 503, 504]

/-- Python exceptions as seen by the retry predicate: an `HttpError`
carrying a readable `resp.status` (`some s`), an `HttpError` whose status
attribute itself raises (`none`), or any other exception. -/
inductive PyExc where
  | httpError (status : Option Nat)
  | otherExc (msg : String)
deriving DecidableEq, Repr

/-- `is_retryable_http_error` from upload.py: `True` exactly when the
exception is an `HttpError` whose readable status is in `RETRYABLE_STATUS`;
a status read that raises, and every non-`HttpError`, yield `False`. -/
def is_retryable_http_error : PyExc → Bool
  | .httpError (some s) => RETRYABLE_STATUS.contains s
  | .httpError none => false
  | .otherExc _ => false

/-- The `tenacity.wait_exponential(multiplier, min, max)` wait (time units)
before the retry that follows attempt `n`:
`max(min, min(multiplier * 2 ^ (n - 1), max))`, exactly the library's
formula `max(max(0, min), min(multiplier * exp_base ** (attempt_number - 1), max))`
specialized to natural parameters and `exp_base = 2`. -/
def waitExponential (multiplier lo hi n : Nat) : Nat :=
  Nat.max (Nat.max 0 lo) (Nat.min (multiplier * 2 ^ (n - 1)) hi)

/-- The wait used at all three retry sites in upload.py:
`wait_exponential(multiplier=1, min=1, max=10)` (for `_call_create` and
`_call_update` the multiplier is the default `1`). -/
def driveWait (n : Nat) : Nat := waitExponential 1 1 10 n

/-- One run of a `tenacity.retry` loop: `left` further attempts are allowed
after the current attempt number `n`; `act n` is the outcome of attempt `n`.
On success the result is returned; on failure the call is retried only when
the predicate accepts the exception and attempts remain, and otherwise
(`reraise=True`) the exception of the failing attempt is re-raised
unchanged.  The second component is the number of the attempt that produced
the returned outcome. -/
def retryGo (retryable : PyExc → Bool) (act : Nat → Except PyExc α) :
    Nat → Nat → Except PyExc α × Nat
  | left, n =>
    match act n with
    | .ok a => (.ok a, n)
    | .error e =>
      match left with
      | 0 => (.error e, n)
      | l + 1 => if retryable e then retryGo retryable act l (n + 1) else (.error e, n)

/-- `@retry(retry=retry_if_exception(p), stop=stop_after_attempt(maxAttempts),
reraise=True)` applied to an action: attempt numbers start at 1 and at most
`maxAttempts` attempts are made. -/
def retryCall (maxAttempts : Nat) (retryable : PyExc → Bool)
    (act : Nat → Except PyExc α) : Except PyExc α × Nat :=
  retryGo retryable act (maxAttempts - 1) 1

/-- The retry configuration shared by `_call_create`, `_call_update` and
`_drive_list` in upload.py: predicate `is_retryable_http_error`, at most 5
attempts. -/
def driveRetry (act : Nat → Except PyExc α) : Except PyExc α × Nat :=
  retryCall 5 is_retryable_http_error act

/-- The metadata dictionary (`fields="id,name"`) the code passes around for
folders and files. -/
structure ItemMeta where
  id : String
  name : String
deriving DecidableEq, Repr

/-- A remote Drive item: identifier, display name, single parent
identifier, folder flag (`mimeType='application/vnd.google-apps.folder'`)
and trashed flag. -/
structure Item where
  id : String
  name : String
  parent : String
  isFolder : Bool
  trashed : Bool
deriving DecidableEq, Repr

/-- A remote call reaching the Drive client, as recorded for
call-counting: a `files().list` query (with or without the folder
mime-type filter), a folder creation, a file creation, or a file update
addressed by identifier. -/
inductive Event where
  | listCall (folderOnly : Bool) (parent name : String)
  | createFolder (parent name : String)
  | createFile (parent name : String)
  | updateFile (fileId : String)
deriving DecidableEq, Repr

/-- The state threaded through one `DriveService` run: the remote store's
items (in listing order; creations append), a counter generating fresh
remote identifiers, the `folder_cache` keyed by `(parent id, name)`, the
`dry_run` flag, and the trace of calls that reached the remote client. -/
structure DriveState where
  items : List Item
  nextId : Nat
  cache : List ((String × String) × ItemMeta)
  dryRun : Bool
  trace : List Event
deriving DecidableEq, Repr

/-- Predicate of the `get_subfolder` listing query: folder mime type, exact
name, given parent, not trashed. -/
def folderMatch (p n : String) (it : Item) : Bool :=
  it.isFolder && it.name == n && it.parent == p && !it.trashed

/-- Predicate of the `get_file` listing query: exact name, not trashed,
given parent — note the absence of any mime-type restriction, so folders
match too. -/
def fileQueryMatch (p n : String) (it : Item) : Bool :=
  it.name == n && it.parent == p && !it.trashed

/-- `self.folder_cache.get((folder_id, name))`. -/
def cacheLookup (s : DriveState) (p n : String) : Option ItemMeta :=
  (s.cache.find? (fun e => e.1 == (p, n))).map (·.2)

/-- The item a `pageSize=1` folder query returns, if any: the first
matching item of the store. -/
def firstFolderItem (s : DriveState) (p n : String) : Option Item :=
  s.items.find? (folderMatch p n)

/-- Drive identifiers minted by the modelled remote store. -/
def freshId (s : DriveState) : String := "gen" ++ toString s.nextId

/-- `get_subfolder(folder_id, name)`: answer from the cache when present;
otherwise issue the folder-filtered listing call, and on a hit insert the
found metadata into the cache. -/
def get_subfolder (s : DriveState) (p n : String) : Option ItemMeta × DriveState :=
  match cacheLookup s p n with
  | some f => (some f, s)
  | none =>
    let s1 : DriveState := { s with trace := s.trace ++ [.listCall true p n] }
    match firstFolderItem s p n with
    | some it =>
      let meta : ItemMeta := ⟨it.id, it.name⟩
      (some meta, { s1 with cache := s1.cache ++ [((p, n), meta)] })
    | none => (none, s1)

/-- `_call_create` as invoked from `get_or_create_subfolders`: in dry-run
mode return the synthetic `{"id": "dry_run", "name": name}` without
touching the remote store; otherwise create the folder (single parent) and
return its metadata. -/
def call_create_folder (s : DriveState) (p n : String) : ItemMeta × DriveState :=
  if s.dryRun then
    (⟨"dry_run", n⟩, s)
  else
    let newId := freshId s
    (⟨newId, n⟩,
     { s with items := s.items ++ [⟨newId, n, p, true, false⟩],
              nextId := s.nextId + 1,
              trace := s.trace ++ [.createFolder p n] })

/-- One iteration of the `get_or_create_subfolders` loop: resolve `name`
under the current folder `p`, creating it when neither the cache nor the
listing finds it. -/
def resolveStep (s : DriveState) (p n : String) : ItemMeta × DriveState :=
  match get_subfolder s p n with
  | (some f, s1) => (f, s1)
  | (none, s1) => call_create_folder s1 p n

/-- `get_or_create_subfolders(parent, *paths)`: walk the segment list,
each step resolving under the previous step's folder; the empty list
returns `parent` itself. -/
def get_or_create_subfolders (s : DriveState) (parent : ItemMeta) :
    List String → ItemMeta × DriveState
  | [] => (parent, s)
  | n :: rest =>
    let (f, s1) := resolveStep s parent.id n
    get_or_create_subfolders s1 f rest

/-- `get_file(parent, filename)`: a listing call with name, non-trashed
and parent conditions only (no mime-type filter), `pageSize=1`. -/
def get_file (s : DriveState) (parentId fname : String) : Option ItemMeta × DriveState :=
  let s1 : DriveState := { s with trace := s.trace ++ [.listCall false parentId fname] }
  match s.items.find? (fileQueryMatch parentId fname) with
  | some it => (some ⟨it.id, it.name⟩, s1)
  | none => (none, s1)

/-- `_call_update(dfile, fields=..., media_body=..., supportsAllDrives=...)`
as invoked from `create_or_update_file`: the call site passes no `body`
keyword, so the dry-run branch's `kwargs["body"]["name"]` raises
`KeyError: 'body'`; otherwise the remote update replaces the content of the
file with identifier `efile.id` and returns its (unchanged) id and name. -/
def call_update (s : DriveState) (efile : ItemMeta) : Except String (ItemMeta × DriveState) :=
  if s.dryRun then
    .error "KeyError: 'body'"
  else
    .ok (⟨efile.id, efile.name⟩, { s with trace := s.trace ++ [.updateFile efile.id] })

/-- `_call_create` as invoked from `create_or_update_file`: dry-run returns
the synthetic metadata without touching the remote store; otherwise create
the file with the destination as sole parent. -/
def call_create_file (s : DriveState) (parentId fname : String) : ItemMeta × DriveState :=
  if s.dryRun then
    (⟨"dry_run", fname⟩, s)
  else
    let newId := freshId s
    (⟨newId, fname⟩,
     { s with items := s.items ++ [⟨newId, fname, parentId, false, false⟩],
              nextId := s.nextId + 1,
              trace := s.trace ++ [.createFile parentId fname] })

/-- `create_or_update_file(parent, local_path)` (the content stream is not
modelled; `fname = local_path.name`): look the name up in the destination
folder, update the found item in place, or create a new file there. -/
def create_or_update_file (s : DriveState) (parent : ItemMeta) (fname : String) :
    Except String (ItemMeta × DriveState) :=
  match get_file s parent.id fname with
  | (some d, s1) => call_update s1 d
  | (none, s1) => .ok (call_create_file s1 parent.id fname)

/-- A `pathlib` path: an absolute-or-relative flag and the list of
segments (paths are taken already normalized: no `..`, `.` is the empty
relative path). -/
structure PyPath where
  absolute : Bool
  segs : List String
deriving DecidableEq, Repr

/-- `a / b` on `pathlib` paths: an absolute right operand replaces the
left one. -/
def joinPath (a b : PyPath) : PyPath :=
  if b.absolute then b else ⟨a.absolute, a.segs ++ b.segs⟩

/-- `Path.resolve()` on an already-absolute, symlink-free, normalized
path, which is the identity; the walker below is analysed under that
modelling assumption. -/
def resolvePath (p : PyPath) : PyPath := p

/-- `p.relative_to(base)` for normalized paths: the remaining segments
when `base` is an ancestor (or `p` itself), `ValueError` otherwise. -/
def relative_to (p base : PyPath) : Except String (List String) :=
  if p.absolute == base.absolute && base.segs.isPrefixOf p.segs then
    .ok (p.segs.drop base.segs.length)
  else
    .error "ValueError"

/-- A local directory tree: named subdirectories and the regular file
names directly inside. -/
inductive FsTree where
  | node : List (String × FsTree) → List String → FsTree

mutual

/-- `os.walk(p)` over the directory tree `t` rooted at `p` (top-down):
the `(root, files)` pairs in traversal order, current directory first. -/
def walkList (p : PyPath) : FsTree → List (PyPath × List String)
  | .node dirs files => (p, files) :: walkDirsList p dirs

/-- Traversal of the subdirectory list of one directory. -/
def walkDirsList (p : PyPath) : List (String × FsTree) → List (PyPath × List String)
  | [] => []
  | (n, t) :: rest => walkList (joinPath p ⟨false, [n]⟩) t ++ walkDirsList p rest

end

mutual

/-- Every regular file under a directory tree, each exactly once, paired
with the segments of its containing directory relative to the tree's
root. -/
def treeFiles : FsTree → List (List String × String)
  | .node dirs files => files.map (fun f => ([], f)) ++ treeFilesDirs dirs

/-- Files contributed by a subdirectory list. -/
def treeFilesDirs : List (String × FsTree) → List (List String × String)
  | [] => []
  | (n, t) :: rest =>
      (treeFiles t).map (fun e => (n :: e.1, e.2)) ++ treeFilesDirs rest

end

/-- Upload one local file whose containing directory sits at the relative
segment list `rel` below the destination `folder`: resolve the folder
chain, then create or update the file there. -/
def uploadToRel (folder : ItemMeta) (rel : List String) (fname : String)
    (s : DriveState) : Except String DriveState := do
  let (parent, s1) := get_or_create_subfolders s folder rel
  let (_, s2) ← create_or_update_file s1 parent fname
  pure s2

/-- The body of the `upload_hierarchy` loop for one file: compute the
walked directory's path relative to `local_root` (raising `ValueError`
when it is not an ancestor), then upload the file to the resolved remote
folder. -/
def uploadOne (folder : ItemMeta) (local_root root : PyPath) (fname : String)
    (s : DriveState) : Except String DriveState := do
  let rel ← relative_to (resolvePath root) local_root
  uploadToRel folder rel fname s

/-- `upload_hierarchy(local_root, folder, local_rel_directory)` over the
directory tree `tree` found at the starting directory: the start is
`local_root / local_rel_directory` (the subdirectory itself when
absolute, `.` when omitted), and every file yielded by the walk is
uploaded to the folder resolved from its directory's path relative to
`local_root`. -/
def upload_hierarchy (s : DriveState) (local_root : PyPath) (folder : ItemMeta)
    (local_rel_directory : Option PyPath) (tree : FsTree) :
    Except String DriveState :=
  let local_dir := local_rel_directory.getD ⟨false, []⟩
  let to_upload := joinPath local_root local_dir
  (walkList to_upload tree).foldlM
    (fun st rf => rf.2.foldlM (fun st f => uploadOne folder local_root rf.1 f st) st) s

/-- The process-level state seen by the archive materializer: the live
temporary directories (by creation number), the counter for the next
one, and the Drive run state. -/
structure World where
  tempDirs : List Nat
  nextTemp : Nat
  drive : DriveState
deriving Repr

/-- `upload_hierarchy_from_archive(archive_file, folder)`: create a fresh
temporary directory, extract the archive into it (`archive` is the
extraction's outcome: a directory tree, or the extraction error), upload
the hierarchy from there, and — as the `with TemporaryDirectory()` block
guarantees — remove the temporary directory on every exit path before the
outcome (success or the propagating exception) leaves the function. -/
def upload_hierarchy_from_archive (w : World) (archive : Except String FsTree)
    (folder : ItemMeta) : Except String DriveState × World :=
  let td := w.nextTemp
  let w1 : World := { w with tempDirs := w.tempDirs ++ [td], nextTemp := w.nextTemp + 1 }
  let body : Except String DriveState := do
    let tree ← archive
    upload_hierarchy w1.drive ⟨true, ["tmp" ++ toString td]⟩ folder none tree
  let w2 : World := { w1 with
    tempDirs := w1.tempDirs.filter (fun d => d ≠ td),
    drive := match body with | .ok d => d | .error _ => w1.drive }
  (body, w2)

/-! ### Helper lemmas about the retry loop -/

theorem retryGo_snd_ge (r : PyExc → Bool) (act : Nat → Except PyExc α) :
    ∀ left n, n ≤ (retryGo r act left n).2 := by
  intro left
  induction left with
  | zero =>
    intro n
    unfold retryGo
    cases act n <;> simp
  | succ l ih =>
    intro n
    unfold retryGo
    cases act n with
    | ok a => simp
    | error e =>
      by_cases hr : r e = true
      · simpa [hr] using le_trans (Nat.le_succ n) (ih (n + 1))
      · simp [hr]

theorem retryGo_error_step (r : PyExc → Bool) (act : Nat → Except PyExc α)
    (l n : Nat) (e : PyExc) (hact : act n = .error e) (hr : r e = true) :
    retryGo r act (l + 1) n = retryGo r act l (n + 1) := by
  conv_lhs => unfold retryGo
  simp [hact, hr]

theorem retryGo_error_last (r : PyExc → Bool) (act : Nat → Except PyExc α)
    (n : Nat) (e : PyExc) (hact : act n = .error e) :
    retryGo r act 0 n = (.error e, n) := by
  unfold retryGo
  simp [hact]

/-- C4: a wrapped remote call is retried if and only if the raised
exception is an HTTP error whose readable status lies in
{429, 500, 502, 503, 504}; any other exception — including one whose
status cannot be read — propagates unchanged on the first attempt. -/
theorem retry_exactly_on_retryable_status (act : Nat → Except PyExc α)
    (e : PyExc) (h1 : act 1 = .error e) :
    (is_retryable_http_error e = true ↔
      ∃ st, e = .httpError (some st) ∧ st ∈ RETRYABLE_STATUS)
    ∧ (is_retryable_http_error e = false → driveRetry act = (.error e, 1))
    ∧ (is_retryable_http_error e = true → 2 ≤ (driveRetry act).2) := by
  refine ⟨?_, ?_, ?_⟩
  · cases e with
    | httpError st =>
      cases st with
      | none => simp [is_retryable_http_error]
      | some s =>
        constructor
        · intro h
          exact ⟨s, rfl, List.elem_iff.mp h⟩
        · rintro ⟨st, heq, hmem⟩
          obtain rfl : st = s := by
            cases heq
            rfl
          exact List.elem_iff.mpr hmem
    | otherExc m => simp [is_retryable_http_error]
  · intro hfat
    show retryGo _ act (5 - 1) 1 = (.error e, 1)
    rw [show (5 - 1 : Nat) = 3 + 1 from rfl]
    conv_lhs => unfold retryGo
    simp [h1, hfat]
  · intro hret
    show 2 ≤ (retryGo _ act (5 - 1) 1).2
    rw [show (5 - 1 : Nat) = 3 + 1 from rfl,
        retryGo_error_step is_retryable_http_error act 3 1 e h1 hret]
    exact retryGo_snd_ge is_retryable_http_error act 3 2

/-- Witness for C4 at the concrete non-retryable status 404: the call
propagates on the first attempt. -/
theorem retry_exactly_on_retryable_status_witness :
    ((is_retryable_http_error (.httpError (some 404)) = true ↔
        ∃ st, PyExc.httpError (some 404) = .httpError (some st) ∧ st ∈ RETRYABLE_STATUS)
      ∧ (is_retryable_http_error (.httpError (some 404)) = false →
          driveRetry (fun _ => (.error (.httpError (some 404)) : Except PyExc Nat))
            = (.error (.httpError (some 404)), 1))
      ∧ (is_retryable_http_error (.httpError (some 404)) = true →
          2 ≤ (driveRetry (fun _ => (.error (.httpError (some 404)) : Except PyExc Nat))).2)) :=
  retry_exactly_on_retryable_status
    (fun _ => (.error (.httpError (some 404)) : Except PyExc Nat))
    (.httpError (some 404)) rfl

/-- C5: under persistent retryable failure the wrapped call makes exactly
5 attempts (so never more than 5) and then re-raises the 5th attempt's
exception unchanged; the configured backoff before the retry that follows
attempt `n` starts at 1 time unit, doubles at each retry, and is capped at
10 time units. -/
theorem retry_budget_and_backoff (α : Type) (e : Nat → PyExc)
    (h : ∀ n, is_retryable_http_error (e n) = true) :
    driveRetry (fun n => (.error (e n) : Except PyExc α)) = (.error (e 5), 5)
    ∧ driveWait 1 = 1
    ∧ (∀ n, 1 ≤ n → driveWait (n + 1) = Nat.min (2 * driveWait n) 10) := by
  refine ⟨?_, by decide, ?_⟩
  · show retryGo _ _ (5 - 1) 1 = (.error (e 5), 5)
    rw [show (5 - 1 : Nat) = 3 + 1 from rfl,
        retryGo_error_step is_retryable_http_error _ 3 1 (e 1) rfl (h 1),
        show (3 : Nat) = 2 + 1 from rfl,
        retryGo_error_step is_retryable_http_error _ 2 2 (e 2) rfl (h 2),
        show (2 : Nat) = 1 + 1 from rfl,
        retryGo_error_step is_retryable_http_error _ 1 3 (e 3) rfl (h 3),
        show (1 : Nat) = 0 + 1 from rfl,
        retryGo_error_step is_retryable_http_error _ 0 4 (e 4) rfl (h 4),
        retryGo_error_last is_retryable_http_error _ 5 (e 5) rfl]
  · intro n hn
    obtain ⟨m, rfl⟩ : ∃ m, n = m + 1 := ⟨n - 1, (Nat.succ_pred_eq_of_pos hn).symm⟩
    have h2 : (2 : Nat) ^ (m + 1) = 2 * 2 ^ m := by
      rw [pow_succ, Nat.mul_comm]
    simp only [driveWait, waitExponential, Nat.add_sub_cancel, one_mul, h2]
    have h1 : 1 ≤ 2 ^ m := Nat.one_le_two_pow
    simp only [Nat.max_def, Nat.min_def]
    split_ifs <;> omega

/-- Witness for C5: every attempt fails with status 503. -/
theorem retry_budget_and_backoff_witness :
    (driveRetry (fun _ => (.error (.httpError (some 503)) : Except PyExc Nat))
        = (.error (.httpError (some 503)), 5)
      ∧ driveWait 1 = 1
      ∧ (∀ n, 1 ≤ n → driveWait (n + 1) = Nat.min (2 * driveWait n) 10)) :=
  retry_budget_and_backoff Nat (fun _ => .httpError (some 503)) (fun _ => rfl)

/-- C9: `get_or_create_subfolders` on an empty segment sequence returns
the starting folder unchanged and leaves the whole run state — store,
cache and the trace of remote calls — untouched. -/
theorem get_or_create_subfolders_nil (s : DriveState) (parent : ItemMeta) :
    get_or_create_subfolders s parent [] = (parent, s) := rfl

/-- C6: the dry-run create short-circuit does return the synthetic
`"dry_run"` metadata while the listing still reaches the remote client and
the store is untouched, but the dry-run *update* short-circuit reads the
absent `body` keyword argument and raises `KeyError: 'body'` instead of
returning synthetic metadata: uploading a file whose name already exists
remotely crashes in dry-run mode. -/
theorem dry_run_update_raises_keyerror :
    create_or_update_file ⟨[⟨"f1", "a.txt", "root", false, false⟩], 0, [], true, []⟩
        ⟨"root", "dest"⟩ "a.txt" = .error "KeyError: 'body'"
    ∧ create_or_update_file ⟨[], 0, [], true, []⟩ ⟨"root", "dest"⟩ "b.txt"
        = .ok (⟨"dry_run", "b.txt"⟩,
               ⟨[], 0, [], true, [.listCall false "root" "b.txt"]⟩) :=
  ⟨rfl, rfl⟩

/-- C10: the `get_file` query predicate ignores the folder flag (it has no
mime-type filter, unlike `get_subfolder`'s), so in a destination folder
containing only a same-named subfolder `f9` and no file, the upload takes
the update branch addressed at the folder's identifier — no new file is
created and the store is unchanged. -/
theorem file_lookup_matches_same_named_folder :
    (∀ b : Bool, fileQueryMatch "root" "x" ⟨"f9", "x", "root", b, false⟩ = true)
    ∧ create_or_update_file ⟨[⟨"f9", "x", "root", true, false⟩], 0, [], false, []⟩
        ⟨"root", "dest"⟩ "x"
      = .ok (⟨"f9", "x"⟩,
             ⟨[⟨"f9", "x", "root", true, false⟩], 0, [], false,
              [.listCall false "root" "x", .updateFile "f9"]⟩) :=
  ⟨fun b => by cases b <;> rfl, rfl⟩

/-- Counterexample to C2 as stated: resolving segment `"a"` under
`"root"` *creates* the folder, yet the folder cache stays empty — the
created folder is not inserted — and resolving the same pair again issues
a further listing call for `("root", "a")`. -/
theorem created_folder_not_cached_cex :
    (get_or_create_subfolders ⟨[], 0, [], false, []⟩ ⟨"root", "dest"⟩ ["a"]).2.cache = []
    ∧ (get_or_create_subfolders
         (get_or_create_subfolders ⟨[], 0, [], false, []⟩ ⟨"root", "dest"⟩ ["a"]).2
         ⟨"root", "dest"⟩ ["a"]).2.trace
       = [.listCall true "root" "a", .createFolder "root" "a",
          .listCall true "root" "a"] :=
  ⟨rfl, rfl⟩

/-! ### The resolver's resolution relation and its invariants -/

/-- The folder a resolution of `(p, n)` would return in state `s` without
mutating the store: the cached entry when present, otherwise the first
store match of the folder query. -/
def resolvedFolder (s : DriveState) (p n : String) : Option ItemMeta :=
  match cacheLookup s p n with
  | some f => some f
  | none => (firstFolderItem s p n).map (fun it => ⟨it.id, it.name⟩)

/-- The `(parent, name)` pairs of the folder-creation calls in a trace. -/
def folderCreateEvents (tr : List Event) : List (String × String) :=
  tr.filterMap (fun e =>
    match e with
    | .createFolder p n => some (p, n)
    | _ => none)

theorem folderCreateEvents_append (tr tr' : List Event) :
    folderCreateEvents (tr ++ tr') = folderCreateEvents tr ++ folderCreateEvents tr' := by
  simp [folderCreateEvents, List.filterMap_append]

theorem folderCreateEvents_listCall (tr : List Event) (b : Bool) (p n : String) :
    folderCreateEvents (tr ++ [.listCall b p n]) = folderCreateEvents tr := by
  simp [folderCreateEvents, List.filterMap_append]

/-- Exhaustive description of one resolver iteration in a non-dry-run
state: cache hit (no state change), listing hit (list event, cache
insertion), or creation (list event, create event, store insertion, cache
untouched). -/
theorem resolveStep_cases (s : DriveState) (p n : String) (hdry : s.dryRun = false) :
    (∃ f, cacheLookup s p n = some f ∧ resolveStep s p n = (f, s))
    ∨ (cacheLookup s p n = none ∧ ∃ it, firstFolderItem s p n = some it ∧
        resolveStep s p n = (⟨it.id, it.name⟩,
          { s with trace := s.trace ++ [.listCall true p n],
                   cache := s.cache ++ [((p, n), ⟨it.id, it.name⟩)] }))
    ∨ (cacheLookup s p n = none ∧ firstFolderItem s p n = none ∧
        resolveStep s p n = (⟨freshId s, n⟩,
          { s with items := s.items ++ [⟨freshId s, n, p, true, false⟩],
                   nextId := s.nextId + 1,
                   trace := (s.trace ++ [.listCall true p n]) ++ [.createFolder p n] })) := by
  cases hc : cacheLookup s p n with
  | some f =>
    left
    exact ⟨f, rfl, by simp [resolveStep, get_subfolder, hc]⟩
  | none =>
    cases hi : firstFolderItem s p n with
    | some it =>
      right; left
      exact ⟨rfl, it, rfl, by simp [resolveStep, get_subfolder, hc, hi]⟩
    | none =>
      right; right
      refine ⟨rfl, rfl, ?_⟩
      simp [resolveStep, get_subfolder, hc, hi, call_create_folder, hdry, freshId]

theorem resolveStep_dryRun (s : DriveState) (p n : String) :
    (resolveStep s p n).2.dryRun = s.dryRun := by
  unfold resolveStep get_subfolder call_create_folder
  cases cacheLookup s p n with
  | some f => rfl
  | none =>
    cases firstFolderItem s p n with
    | some it => rfl
    | none =>
      by_cases h : s.dryRun <;> simp [h]

/-- After one resolver iteration the resolved pair maps to the returned
folder: a found folder is henceforth served by the cache, a created folder
is the first store match of its own query. -/
theorem resolveStep_resolved (s : DriveState) (p n : String) (hdry : s.dryRun = false) :
    resolvedFolder (resolveStep s p n).2 p n = some (resolveStep s p n).1 := by
  rcases resolveStep_cases s p n hdry with ⟨f, hc, hstep⟩ | ⟨hc, it, hi, hstep⟩ | ⟨hc, hi, hstep⟩
  · rw [hstep]
    simp [resolvedFolder, hc]
  · rw [hstep]
    have hfind : s.cache.find? (fun e => e.1 == (p, n)) = none := by
      simpa [cacheLookup] using hc
    simp [resolvedFolder, cacheLookup, List.find?_append, hfind, List.find?]
  · rw [hstep]
    have hfind : s.items.find? (folderMatch p n) = none := hi
    have hfindc : s.cache.find? (fun e => e.1 == (p, n)) = none := by
      simpa [cacheLookup] using hc
    simp [resolvedFolder, cacheLookup, firstFolderItem, hfindc, List.find?_append, hfind,
          List.find?, folderMatch]

/-- A resolution fact is stable under any further resolver iteration: the
store only grows, cache entries are only added on misses, and an entry
added for the very pair equals the pair's first store match. -/
theorem resolveStep_stable (s : DriveState) (q m p n : String) (f : ItemMeta)
    (hdry : s.dryRun = false) (hres : resolvedFolder s p n = some f) :
    resolvedFolder (resolveStep s q m).2 p n = some f := by
  rcases resolveStep_cases s q m hdry with ⟨g, hc, hstep⟩ | ⟨hc, it, hi, hstep⟩ | ⟨hc, hi, hstep⟩
  · rw [hstep]
    exact hres
  · rw [hstep]
    cases hcl : cacheLookup s p n with
    | some f0 =>
      have hf0 : f0 = f := by
        simpa [resolvedFolder, hcl] using hres
      have hcl' : (s.cache.find? (fun e => e.1 == (p, n))).map (·.2) = some f0 := by
        simpa [cacheLookup] using hcl
      obtain ⟨entry, hent, hent2⟩ := Option.map_eq_some'.mp hcl'
      simp [resolvedFolder, cacheLookup, List.find?_append, hent, hent2, hf0]
    | none =>
      have hfind : s.cache.find? (fun e => e.1 == (p, n)) = none := by
        simpa [cacheLookup] using hcl
      have hfi : (firstFolderItem s p n).map (fun it => (⟨it.id, it.name⟩ : ItemMeta))
          = some f := by
        simpa [resolvedFolder, hcl] using hres
      by_cases hpq : (q, m) = (p, n)
      · have hq : q = p := congrArg Prod.fst hpq
        have hm : m = n := congrArg Prod.snd hpq
        subst hq hm
        rw [hi] at hfi
        have hf : (⟨it.id, it.name⟩ : ItemMeta) = f := by
          simpa using hfi
        simp [resolvedFolder, cacheLookup, List.find?_append, hfind, List.find?, hf]
      · have hne : ((q, m) == (p, n)) = false := by
          simpa using hpq
        obtain ⟨it0, h1, h2⟩ := Option.map_eq_some'.mp hfi
        have h1' : s.items.find? (folderMatch p n) = some it0 := h1
        simp [resolvedFolder, cacheLookup, List.find?_append, hfind, List.find?, hne,
              firstFolderItem, h1', h2]
  · rw [hstep]
    cases hcl : cacheLookup s p n with
    | some f0 =>
      have hf0 : f0 = f := by
        simpa [resolvedFolder, hcl] using hres
      have hcl' : (s.cache.find? (fun e => e.1 == (p, n))).map (·.2) = some f0 := by
        simpa [cacheLookup] using hcl
      obtain ⟨entry, hent, hent2⟩ := Option.map_eq_some'.mp hcl'
      simp [resolvedFolder, cacheLookup, hent, hent2, hf0]
    | none =>
      have hfindc : s.cache.find? (fun e => e.1 == (p, n)) = none := by
        simpa [cacheLookup] using hcl
      have hfi : (firstFolderItem s p n).map (fun it => (⟨it.id, it.name⟩ : ItemMeta))
          = some f := by
        simpa [resolvedFolder, hcl] using hres
      obtain ⟨it0, h1, h2⟩ := Option.map_eq_some'.mp hfi
      have h1' : s.items.find? (folderMatch p n) = some it0 := h1
      simp [resolvedFolder, cacheLookup, firstFolderItem, List.find?_append, hfindc,
            h1', h2]

/-- Resolving an already-resolved pair returns the resolved folder and
issues no creation call. -/
theorem resolveStep_of_resolved (s : DriveState) (p n : String) (f : ItemMeta)
    (hdry : s.dryRun = false) (hres : resolvedFolder s p n = some f) :
    (resolveStep s p n).1 = f
    ∧ folderCreateEvents (resolveStep s p n).2.trace = folderCreateEvents s.trace := by
  rcases resolveStep_cases s p n hdry with ⟨g, hc, hstep⟩ | ⟨hc, it, hi, hstep⟩ | ⟨hc, hi, hstep⟩
  · have hg : g = f := by
      simpa [resolvedFolder, hc] using hres
    rw [hstep]
    exact ⟨hg, rfl⟩
  · have hfi : (⟨it.id, it.name⟩ : ItemMeta) = f := by
      have := hres
      simp [resolvedFolder, hc, hi] at this
      simpa using this
    rw [hstep]
    exact ⟨hfi, folderCreateEvents_listCall _ _ _ _⟩
  · exfalso
    simp [resolvedFolder, hc, hi] at hres

/-- C2 (amended): after a segment `(p, n)` is resolved to `f`, (i) if it
was resolved by *listing* it is now in the cache, (ii) if it was already
cached the resolution changed nothing at all, and (iii) any repeated
resolution of the pair returns `f` again, issues no creation call, issues
at most one further listing call (none when the pair is cached — in
particular a newly *created* segment, which is not cached, incurs exactly
one such listing call), and leaves the pair cached afterwards. -/
theorem segment_resolution_caching (s : DriveState) (p n : String) (f : ItemMeta)
    (s' : DriveState) (hdry : s.dryRun = false) (hstep : resolveStep s p n = (f, s')) :
    (cacheLookup s p n = none → (∃ it, firstFolderItem s p n = some it) →
        cacheLookup s' p n = some f)
    ∧ (∀ f0, cacheLookup s p n = some f0 → f = f0 ∧ s' = s)
    ∧ (resolveStep s' p n).1 = f
    ∧ folderCreateEvents (resolveStep s' p n).2.trace = folderCreateEvents s'.trace
    ∧ ((cacheLookup s' p n = some f → (resolveStep s' p n).2.trace = s'.trace)
        ∧ (cacheLookup s' p n = none →
            (resolveStep s' p n).2.trace = s'.trace ++ [.listCall true p n]))
    ∧ cacheLookup (resolveStep s' p n).2 p n = some f := by
  have hdry' : s'.dryRun = false := by
    have := resolveStep_dryRun s p n
    rw [hstep] at this
    rw [this, hdry]
  have hres' : resolvedFolder s' p n = some f := by
    have := resolveStep_resolved s p n hdry
    rw [hstep] at this
    exact this
  obtain ⟨hfst, hnocreate⟩ := resolveStep_of_resolved s' p n f hdry' hres'
  refine ⟨?_, ?_, hfst, hnocreate, ?_, ?_⟩
  · intro hc ⟨it, hi⟩
    rcases resolveStep_cases s p n hdry with ⟨g, hc2, h2⟩ | ⟨hc2, it2, hi2, h2⟩
        | ⟨hc2, hi2, h2⟩
    · rw [hc2] at hc
      cases hc
    · rw [h2] at hstep
      obtain ⟨hf, hs⟩ := Prod.mk.injEq .. ▸ hstep
      have hfind : s.cache.find? (fun e => e.1 == (p, n)) = none := by
        simpa [cacheLookup] using hc
      rw [← hs, ← hf]
      simp [cacheLookup, List.find?_append, hfind, List.find?]
    · rw [hi2] at hi
      cases hi
  · intro f0 hc
    rcases resolveStep_cases s p n hdry with ⟨g, hc2, h2⟩ | ⟨hc2, it2, hi2, h2⟩
        | ⟨hc2, hi2, h2⟩
    · rw [hc2] at hc
      cases hc
      rw [h2] at hstep
      obtain ⟨hf, hs⟩ := Prod.mk.injEq .. ▸ hstep
      exact ⟨hf.symm, hs.symm⟩
    · rw [hc2] at hc
      cases hc
    · rw [hc2] at hc
      cases hc
  · constructor
    · intro hc'
      rcases resolveStep_cases s' p n hdry' with ⟨g, hc2, h2⟩ | ⟨hc2, it2, hi2, h2⟩
          | ⟨hc2, hi2, h2⟩
      · rw [h2]
      · rw [hc2] at hc'
        cases hc'
      · rw [hc2] at hc'
        cases hc'
    · intro hc'
      rcases resolveStep_cases s' p n hdry' with ⟨g, hc2, h2⟩ | ⟨hc2, it2, hi2, h2⟩
          | ⟨hc2, hi2, h2⟩
      · rw [hc2] at hc'
        cases hc'
      · rw [h2]
      · exfalso
        simp [resolvedFolder, hc2, hi2] at hres'
  · rcases resolveStep_cases s' p n hdry' with ⟨g, hc2, h2⟩ | ⟨hc2, it2, hi2, h2⟩
        | ⟨hc2, hi2, h2⟩
    · have hg : g = f := by
        simpa [resolvedFolder, hc2] using hres'
      rw [h2, hc2, hg]
    · have hfi : (⟨it2.id, it2.name⟩ : ItemMeta) = f := by
        have := hres'
        simp [resolvedFolder, hc2, hi2] at this
        simpa using this
      have hfind : s'.cache.find? (fun e => e.1 == (p, n)) = none := by
        simpa [cacheLookup] using hc2
      rw [h2]
      simp [cacheLookup, List.find?_append, hfind, List.find?, hfi]
    · exfalso
      simp [resolvedFolder, hc2, hi2] at hres'

/-- Witness for the amended C2 at a concrete creation: segment `"a"`
under `"P"` on an empty store. -/
theorem segment_resolution_caching_witness :
    ((cacheLookup ⟨[], 0, [], false, []⟩ "P" "a" = none →
        (∃ it, firstFolderItem ⟨[], 0, [], false, []⟩ "P" "a" = some it) →
        cacheLookup ⟨[⟨"gen0", "a", "P", true, false⟩], 1, [], false,
          [.listCall true "P" "a", .createFolder "P" "a"]⟩ "P" "a" = some ⟨"gen0", "a"⟩)
      ∧ (∀ f0, cacheLookup ⟨[], 0, [], false, []⟩ "P" "a" = some f0 →
          (⟨"gen0", "a"⟩ : ItemMeta) = f0
          ∧ (⟨[⟨"gen0", "a", "P", true, false⟩], 1, [], false,
              [.listCall true "P" "a", .createFolder "P" "a"]⟩ : DriveState)
            = ⟨[], 0, [], false, []⟩)
      ∧ (resolveStep ⟨[⟨"gen0", "a", "P", true, false⟩], 1, [], false,
          [.listCall true "P" "a", .createFolder "P" "a"]⟩ "P" "a").1 = ⟨"gen0", "a"⟩
      ∧ folderCreateEvents (resolveStep ⟨[⟨"gen0", "a", "P", true, false⟩], 1, [], false,
          [.listCall true "P" "a", .createFolder "P" "a"]⟩ "P" "a").2.trace
        = folderCreateEvents [.listCall true "P" "a", .createFolder "P" "a"]
      ∧ ((cacheLookup ⟨[⟨"gen0", "a", "P", true, false⟩], 1, [], false,
            [.listCall true "P" "a", .createFolder "P" "a"]⟩ "P" "a" = some ⟨"gen0", "a"⟩ →
          (resolveStep ⟨[⟨"gen0", "a", "P", true, false⟩], 1, [], false,
            [.listCall true "P" "a", .createFolder "P" "a"]⟩ "P" "a").2.trace
            = [.listCall true "P" "a", .createFolder "P" "a"])
        ∧ (cacheLookup ⟨[⟨"gen0", "a", "P", true, false⟩], 1, [], false,
            [.listCall true "P" "a", .createFolder "P" "a"]⟩ "P" "a" = none →
          (resolveStep ⟨[⟨"gen0", "a", "P", true, false⟩], 1, [], false,
            [.listCall true "P" "a", .createFolder "P" "a"]⟩ "P" "a").2.trace
            = [.listCall true "P" "a", .createFolder "P" "a"]
              ++ [.listCall true "P" "a"]))
      ∧ cacheLookup (resolveStep ⟨[⟨"gen0", "a", "P", true, false⟩], 1, [], false,
          [.listCall true "P" "a", .createFolder "P" "a"]⟩ "P" "a").2 "P" "a"
        = some ⟨"gen0", "a"⟩) :=
  segment_resolution_caching ⟨[], 0, [], false, []⟩ "P" "a" ⟨"gen0", "a"⟩
    ⟨[⟨"gen0", "a", "P", true, false⟩], 1, [], false,
      [.listCall true "P" "a", .createFolder "P" "a"]⟩ rfl rfl

/-- `t` extends `s`: every resolution fact of `s` persists in `t`. -/
def Ext (s t : DriveState) : Prop :=
  ∀ p n f, resolvedFolder s p n = some f → resolvedFolder t p n = some f

/-- A whole resolver walk preserves resolution facts and the dry-run
flag. -/
theorem gOCS_ext : ∀ (paths : List String) (s : DriveState) (parent : ItemMeta),
    s.dryRun = false →
    Ext s (get_or_create_subfolders s parent paths).2
    ∧ (get_or_create_subfolders s parent paths).2.dryRun = false := by
  intro paths
  induction paths with
  | nil =>
    intro s parent h
    exact ⟨fun p n f hf => hf, h⟩
  | cons nm rest ih =>
    intro s parent h
    obtain ⟨f, s1, hstep⟩ : ∃ f s1, resolveStep s parent.id nm = (f, s1) := ⟨_, _, rfl⟩
    simp only [get_or_create_subfolders, hstep]
    have h1 : s1.dryRun = false := by
      have hd := resolveStep_dryRun s parent.id nm
      rw [hstep] at hd
      rw [hd, h]
    obtain ⟨ihExt, ihdry⟩ := ih s1 f h1
    refine ⟨fun p n g hg => ihExt p n g ?_, ihdry⟩
    have hst := resolveStep_stable s parent.id nm p n g h hg
    rw [hstep] at hst
    exact hst

/-- Re-walking a segment list from any state extending the first walk's
final state returns the same folder metadata, issues no creation call, and
still extends the first walk's final state. -/
theorem gOCS_repeat : ∀ (paths : List String) (s : DriveState) (parent : ItemMeta)
    (t : DriveState),
    s.dryRun = false → t.dryRun = false →
    Ext (get_or_create_subfolders s parent paths).2 t →
    (get_or_create_subfolders t parent paths).1
        = (get_or_create_subfolders s parent paths).1
    ∧ folderCreateEvents (get_or_create_subfolders t parent paths).2.trace
        = folderCreateEvents t.trace
    ∧ Ext (get_or_create_subfolders s parent paths).2
        (get_or_create_subfolders t parent paths).2 := by
  intro paths
  induction paths with
  | nil =>
    intro s parent t hs ht hext
    exact ⟨rfl, rfl, hext⟩
  | cons nm rest ih =>
    intro s parent t hs ht hext
    obtain ⟨f, sA, hstep⟩ : ∃ f sA, resolveStep s parent.id nm = (f, sA) := ⟨_, _, rfl⟩
    have hAdry : sA.dryRun = false := by
      have hd := resolveStep_dryRun s parent.id nm
      rw [hstep] at hd
      rw [hd, hs]
    simp only [get_or_create_subfolders, hstep] at hext ⊢
    have hresA : resolvedFolder sA parent.id nm = some f := by
      have hr := resolveStep_resolved s parent.id nm hs
      rw [hstep] at hr
      exact hr
    have hres1 : resolvedFolder (get_or_create_subfolders sA f rest).2 parent.id nm
        = some f :=
      (gOCS_ext rest sA f hAdry).1 parent.id nm f hresA
    have hrest : resolvedFolder t parent.id nm = some f := hext parent.id nm f hres1
    obtain ⟨hfst, hnoc⟩ := resolveStep_of_resolved t parent.id nm f ht hrest
    obtain ⟨f', t1, hstep2⟩ : ∃ f' t1, resolveStep t parent.id nm = (f', t1) := ⟨_, _, rfl⟩
    rw [hstep2] at hfst hnoc
    simp only at hfst hnoc
    simp only [hstep2, hfst]
    have ht1 : t1.dryRun = false := by
      have hd := resolveStep_dryRun t parent.id nm
      rw [hstep2] at hd
      rw [hd, ht]
    have hext1 : Ext (get_or_create_subfolders sA f rest).2 t1 := by
      intro p n g hg
      have hst := resolveStep_stable t parent.id nm p n g ht (hext p n g hg)
      rw [hstep2] at hst
      exact hst
    obtain ⟨e1, e2, e3⟩ := ih sA f t1 hAdry ht1 hext1
    exact ⟨e1, by rw [e2, hnoc], e3⟩

/-- The folder-creation calls added by one resolver walk target pairwise
distinct `(parent, name)` pairs, each of which was unresolved before the
walk: a creation happens only when neither the cache nor the store knows
the pair, and immediately afterwards the pair is resolved, so it is never
created again. -/
theorem gOCS_creates_nodup : ∀ (paths : List String) (s : DriveState) (parent : ItemMeta),
    s.dryRun = false →
    ∃ new, folderCreateEvents (get_or_create_subfolders s parent paths).2.trace
        = folderCreateEvents s.trace ++ new
      ∧ new.Nodup
      ∧ ∀ pn ∈ new, resolvedFolder s pn.1 pn.2 = none := by
  intro paths
  induction paths with
  | nil =>
    intro s parent h
    exact ⟨[], by simp [get_or_create_subfolders], List.nodup_nil, by simp⟩
  | cons nm rest ih =>
    intro s parent h
    obtain ⟨f, sA, hstep⟩ : ∃ f sA, resolveStep s parent.id nm = (f, sA) := ⟨_, _, rfl⟩
    have hAdry : sA.dryRun = false := by
      have hd := resolveStep_dryRun s parent.id nm
      rw [hstep] at hd
      rw [hd, h]
    have hstable : ∀ p n g, resolvedFolder s p n = some g → resolvedFolder sA p n = some g := by
      intro p n g hg
      have hst := resolveStep_stable s parent.id nm p n g h hg
      rw [hstep] at hst
      exact hst
    have hnone : ∀ pn : String × String, resolvedFolder sA pn.1 pn.2 = none →
        resolvedFolder s pn.1 pn.2 = none := by
      intro pn hA
      cases hx : resolvedFolder s pn.1 pn.2 with
      | none => rfl
      | some g =>
        rw [hstable pn.1 pn.2 g hx] at hA
        cases hA
    simp only [get_or_create_subfolders, hstep]
    obtain ⟨new, h1, h2, h3⟩ := ih sA f hAdry
    rcases resolveStep_cases s parent.id nm h with ⟨g, hc2, h4⟩ | ⟨hc2, it2, hi2, h4⟩
        | ⟨hc2, hi2, h4⟩
    · rw [hstep] at h4
      obtain ⟨hf, hsA⟩ := Prod.mk.injEq .. ▸ h4
      subst hsA
      exact ⟨new, h1, h2, fun pn hpn => hnone pn (h3 pn hpn)⟩
    · rw [hstep] at h4
      obtain ⟨hf, hsA⟩ := Prod.mk.injEq .. ▸ h4
      subst hsA
      refine ⟨new, ?_, h2, fun pn hpn => hnone pn (h3 pn hpn)⟩
      simpa [folderCreateEvents_listCall] using h1
    · rw [hstep] at h4
      obtain ⟨hf, hsA⟩ := Prod.mk.injEq .. ▸ h4
      have hAres : resolvedFolder sA parent.id nm = some f := by
        have hr := resolveStep_resolved s parent.id nm h
        rw [hstep] at hr
        exact hr
      refine ⟨(parent.id, nm) :: new, ?_, ?_, ?_⟩
      · rw [h1, hsA]
        simp [folderCreateEvents_append, folderCreateEvents]
      · refine List.nodup_cons.mpr ⟨?_, h2⟩
        intro hmem
        have hcontra := h3 (parent.id, nm) hmem
        rw [hAres] at hcontra
        cases hcontra
      · intro pn hpn
        rcases List.mem_cons.mp hpn with hpn | hpn
        · rw [hpn]
          simp [resolvedFolder, hc2, hi2]
        · exact hnone pn (h3 pn hpn)

/-- C1: within one non-dry-run service instance, resolving the same
segment sequence a second time returns the same folder metadata (hence
identical identifiers) and issues no further creation call; and the
creation calls issued by the first resolution hit pairwise distinct
`(parent, name)` pairs — exactly one creation call per newly-created
segment and none for a pair already created. -/
theorem folder_resolution_idempotent (s : DriveState) (parent : ItemMeta)
    (paths : List String) (f1 : ItemMeta) (s1 : DriveState)
    (hdry : s.dryRun = false)
    (h1 : get_or_create_subfolders s parent paths = (f1, s1)) :
    (get_or_create_subfolders s1 parent paths).1 = f1
    ∧ folderCreateEvents (get_or_create_subfolders s1 parent paths).2.trace
        = folderCreateEvents s1.trace
    ∧ ∃ new, folderCreateEvents s1.trace = folderCreateEvents s.trace ++ new
        ∧ new.Nodup := by
  have hs1 : s1.dryRun = false := by
    have hd := (gOCS_ext paths s parent hdry).2
    rw [h1] at hd
    exact hd
  have hext : Ext (get_or_create_subfolders s parent paths).2 s1 := by
    rw [h1]
    exact fun p n f hf => hf
  obtain ⟨e1, e2, _⟩ := gOCS_repeat paths s parent s1 hdry hs1 hext
  rw [h1] at e1
  obtain ⟨new, hn1, hn2, _⟩ := gOCS_creates_nodup paths s parent hdry
  rw [h1] at hn1
  exact ⟨e1, e2, new, hn1, hn2⟩

/-- Witness for C1: resolving `["a", "b"]` twice from an empty store. -/
theorem folder_resolution_idempotent_witness :
    ((get_or_create_subfolders
        ⟨[⟨"gen0", "a", "P", true, false⟩, ⟨"gen1", "b", "gen0", true, false⟩], 2, [],
          false,
          [.listCall true "P" "a", .createFolder "P" "a",
           .listCall true "gen0" "b", .createFolder "gen0" "b"]⟩
        ⟨"P", "root"⟩ ["a", "b"]).1 = ⟨"gen1", "b"⟩
      ∧ folderCreateEvents (get_or_create_subfolders
          ⟨[⟨"gen0", "a", "P", true, false⟩, ⟨"gen1", "b", "gen0", true, false⟩], 2, [],
            false,
            [.listCall true "P" "a", .createFolder "P" "a",
             .listCall true "gen0" "b", .createFolder "gen0" "b"]⟩
          ⟨"P", "root"⟩ ["a", "b"]).2.trace
        = folderCreateEvents
            [.listCall true "P" "a", .createFolder "P" "a",
             .listCall true "gen0" "b", .createFolder "gen0" "b"]
      ∧ ∃ new, folderCreateEvents
            [.listCall true "P" "a", .createFolder "P" "a",
             .listCall true "gen0" "b", .createFolder "gen0" "b"]
          = folderCreateEvents ([] : List Event) ++ new
          ∧ new.Nodup) :=
  folder_resolution_idempotent ⟨[], 0, [], false, []⟩ ⟨"P", "root"⟩ ["a", "b"]
    ⟨"gen1", "b"⟩
    ⟨[⟨"gen0", "a", "P", true, false⟩, ⟨"gen1", "b", "gen0", true, false⟩], 2, [],
      false,
      [.listCall true "P" "a", .createFolder "P" "a",
       .listCall true "gen0" "b", .createFolder "gen0" "b"]⟩
    rfl rfl

/-- C3: in a non-dry-run state, `create_or_update_file` issues a creation
call with the destination folder as sole parent when no remote item of the
file's name exists there, and otherwise issues an update call addressed at
the found item's identifier, returning that same identifier and adding no
new store entry. -/
theorem create_or_update_decision (s : DriveState) (parent : ItemMeta) (fname : String)
    (hdry : s.dryRun = false) :
    (s.items.find? (fileQueryMatch parent.id fname) = none →
      create_or_update_file s parent fname =
        .ok (⟨freshId s, fname⟩,
             { s with items := s.items ++ [⟨freshId s, fname, parent.id, false, false⟩],
                      nextId := s.nextId + 1,
                      trace := (s.trace ++ [.listCall false parent.id fname])
                        ++ [.createFile parent.id fname] }))
    ∧ (∀ it, s.items.find? (fileQueryMatch parent.id fname) = some it →
      create_or_update_file s parent fname =
        .ok (⟨it.id, it.name⟩,
             { s with trace := (s.trace ++ [.listCall false parent.id fname])
                 ++ [.updateFile it.id] })) := by
  constructor
  · intro hfind
    simp [create_or_update_file, get_file, hfind, call_create_file, hdry, freshId]
  · intro it hfind
    simp [create_or_update_file, get_file, hfind, call_update, hdry]

/-- Witness for C3: an empty destination (creation) and a destination
already holding `x.txt` (update). -/
theorem create_or_update_decision_witness :
    ((List.find? (fileQueryMatch "P" "x.txt") ([] : List Item) = none →
        create_or_update_file ⟨[], 0, [], false, []⟩ ⟨"P", "root"⟩ "x.txt" =
          .ok (⟨"gen0", "x.txt"⟩,
               ⟨[⟨"gen0", "x.txt", "P", false, false⟩], 1, [], false,
                ([] ++ [.listCall false "P" "x.txt"]) ++ [.createFile "P" "x.txt"]⟩))
      ∧ (∀ it, List.find? (fileQueryMatch "P" "x.txt")
            [⟨"f7", "x.txt", "P", false, false⟩] = some it →
          create_or_update_file ⟨[⟨"f7", "x.txt", "P", false, false⟩], 0, [], false, []⟩
              ⟨"P", "root"⟩ "x.txt" =
            .ok (⟨it.id, it.name⟩,
                 ⟨[⟨"f7", "x.txt", "P", false, false⟩], 0, [], false,
                  ([] ++ [.listCall false "P" "x.txt"]) ++ [.updateFile it.id]⟩))) :=
  ⟨(create_or_update_decision ⟨[], 0, [], false, []⟩ ⟨"P", "root"⟩ "x.txt" rfl).1,
   (create_or_update_decision ⟨[⟨"f7", "x.txt", "P", false, false⟩], 0, [], false, []⟩
      ⟨"P", "root"⟩ "x.txt" rfl).2⟩

/-- C8: whatever the extraction outcome and whatever the upload outcome —
success, upload failure, or extraction failure — the temporary directory
created by `upload_hierarchy_from_archive` is removed before the function
returns: the final set of live temporary directories equals the initial
one, and an extraction error still propagates. -/
theorem tempdir_removed_on_every_exit (w : World) (archive : Except String FsTree)
    (folder : ItemMeta) (hfresh : ∀ d ∈ w.tempDirs, d < w.nextTemp) :
    ((upload_hierarchy_from_archive w archive folder).2).tempDirs = w.tempDirs
    ∧ (∀ e, archive = .error e →
        (upload_hierarchy_from_archive w archive folder).1 = .error e) := by
  constructor
  · have h1 : w.tempDirs.filter (fun d => d ≠ w.nextTemp) = w.tempDirs := by
      refine List.filter_eq_self.mpr fun a ha => ?_
      simp only [ne_eq, decide_eq_true_eq]
      exact Nat.ne_of_lt (hfresh a ha)
    simp [upload_hierarchy_from_archive, List.filter_append, h1]
    exact fun a ha => Nat.ne_of_lt (hfresh a ha)
  · intro e he
    rw [he]
    rfl

/-- Witness for C8: one pre-existing temporary directory, exercised on a
failing extraction and on a successful one over an empty tree. -/
theorem tempdir_removed_on_every_exit_witness :
    (((upload_hierarchy_from_archive ⟨[0], 1, ⟨[], 0, [], false, []⟩⟩
          (.error "corrupt archive") ⟨"P", "root"⟩).2).tempDirs = [0]
      ∧ (∀ e, (.error "corrupt archive" : Except String FsTree) = .error e →
          (upload_hierarchy_from_archive ⟨[0], 1, ⟨[], 0, [], false, []⟩⟩
            (.error "corrupt archive") ⟨"P", "root"⟩).1 = .error e))
    ∧ ((upload_hierarchy_from_archive ⟨[0], 1, ⟨[], 0, [], false, []⟩⟩
          (.ok (.node [] [])) ⟨"P", "root"⟩).2).tempDirs = [0] :=
  ⟨tempdir_removed_on_every_exit ⟨[0], 1, ⟨[], 0, [], false, []⟩⟩
      (.error "corrupt archive") ⟨"P", "root"⟩ (by decide),
   (tempdir_removed_on_every_exit ⟨[0], 1, ⟨[], 0, [], false, []⟩⟩
      (.ok (.node [] [])) ⟨"P", "root"⟩ (by decide)).1⟩

/-! ### The hierarchy walker refines a one-pass enumeration of the tree -/

theorem relative_to_join (base lr : PyPath) (r0 : List String) (n : String)
    (h : relative_to base lr = .ok r0) :
    relative_to (joinPath base ⟨false, [n]⟩) lr = .ok (r0 ++ [n]) := by
  unfold relative_to at h
  by_cases hc : (base.absolute == lr.absolute && lr.segs.isPrefixOf base.segs) = true
  · rw [if_pos hc] at h
    obtain ⟨hab, hpre⟩ := Bool.and_eq_true_iff.mp hc
    have hpre' : lr.segs <+: base.segs := List.isPrefixOf_iff_prefix.mp hpre
    have hlen : lr.segs.length ≤ base.segs.length := hpre'.length_le
    have hr0 : r0 = base.segs.drop lr.segs.length := by
      cases h
      rfl
    unfold relative_to joinPath
    simp only [if_neg (by simp : ¬(false = true))]
    have hcond : ((⟨base.absolute, base.segs ++ [n]⟩ : PyPath).absolute == lr.absolute
        && lr.segs.isPrefixOf (⟨base.absolute, base.segs ++ [n]⟩ : PyPath).segs) = true := by
      refine Bool.and_eq_true_iff.mpr ⟨hab, ?_⟩
      exact List.isPrefixOf_iff_prefix.mpr (hpre'.trans (List.prefix_append _ _))
    rw [if_pos hcond]
    have hdrop : (base.segs ++ [n]).drop lr.segs.length
        = base.segs.drop lr.segs.length ++ [n] := by
      rw [List.drop_append_eq_append_drop, Nat.sub_eq_zero_of_le hlen, List.drop_zero]
    rw [hdrop, hr0]
  · rw [if_neg hc] at h
    cases h

theorem uploadOne_eq (folder : ItemMeta) (lr base : PyPath) (r0 : List String)
    (fname : String) (s : DriveState) (h : relative_to base lr = .ok r0) :
    uploadOne folder lr base fname s = uploadToRel folder r0 fname s := by
  unfold uploadOne resolvePath
  rw [h]
  rfl

mutual

/-- The double fold driving `upload_hierarchy` over `os.walk` output
equals the single fold over the tree's file list, each file paired with
its containing directory's path relative to `local_root`. -/
theorem walk_foldlM_eq (t : FsTree) : ∀ (lr base : PyPath) (folder : ItemMeta)
    (r0 : List String) (s : DriveState), relative_to base lr = .ok r0 →
    (walkList base t).foldlM
        (fun st rf => rf.2.foldlM (fun st f => uploadOne folder lr rf.1 f st) st) s
      = (treeFiles t).foldlM
        (fun st df => uploadToRel folder (r0 ++ df.1) df.2 st) s := by
  cases t with
  | node dirs files =>
    intro lr base folder r0 s h
    rw [walkList, treeFiles, List.foldlM_cons, List.foldlM_append]
    have hfiles : (fun (st : DriveState) (f : String) => uploadOne folder lr base f st)
        = fun st f => uploadToRel folder (r0 ++ []) f st := by
      funext st f
      rw [List.append_nil]
      exact uploadOne_eq folder lr base r0 f st h
    rw [List.foldlM_map]
    simp only [hfiles]
    have hk : (fun s' => (walkDirsList base dirs).foldlM
          (fun st rf => rf.2.foldlM (fun st f => uploadOne folder lr rf.1 f st) st) s')
        = fun s' => (treeFilesDirs dirs).foldlM
          (fun st df => uploadToRel folder (r0 ++ df.1) df.2 st) s' := by
      funext s'
      exact walkDirs_foldlM_eq dirs lr base folder r0 s' h
    rw [hk]

theorem walkDirs_foldlM_eq (dirs : List (String × FsTree)) :
    ∀ (lr base : PyPath) (folder : ItemMeta) (r0 : List String) (s : DriveState),
    relative_to base lr = .ok r0 →
    (walkDirsList base dirs).foldlM
        (fun st rf => rf.2.foldlM (fun st f => uploadOne folder lr rf.1 f st) st) s
      = (treeFilesDirs dirs).foldlM
        (fun st df => uploadToRel folder (r0 ++ df.1) df.2 st) s := by
  cases dirs with
  | nil =>
    intro lr base folder r0 s h
    rfl
  | cons d rest =>
    intro lr base folder r0 s h
    obtain ⟨n, t⟩ := d
    rw [walkDirsList, treeFilesDirs, List.foldlM_append, List.foldlM_append,
        List.foldlM_map]
    have hhead : (walkList (joinPath base ⟨false, [n]⟩) t).foldlM
          (fun st rf => rf.2.foldlM (fun st f => uploadOne folder lr rf.1 f st) st) s
        = (treeFiles t).foldlM
          (fun st df => uploadToRel folder (r0 ++ (n :: df.1)) df.2 st) s := by
      rw [walk_foldlM_eq t lr (joinPath base ⟨false, [n]⟩) folder (r0 ++ [n]) s
            (relative_to_join base lr r0 n h)]
      have : (fun (st : DriveState) (df : List String × String) =>
            uploadToRel folder ((r0 ++ [n]) ++ df.1) df.2 st)
          = fun st df => uploadToRel folder (r0 ++ (n :: df.1)) df.2 st := by
        funext st df
        rw [List.append_assoc, List.singleton_append]
      rw [this]
    rw [hhead]
    have hk : (fun s' => (walkDirsList base rest).foldlM
          (fun st rf => rf.2.foldlM (fun st f => uploadOne folder lr rf.1 f st) st) s')
        = fun s' => (treeFilesDirs rest).foldlM
          (fun st df => uploadToRel folder (r0 ++ df.1) df.2 st) s' := by
      funext s'
      exact walkDirs_foldlM_eq rest lr base folder r0 s' h
    rw [hk]

end

theorem create_or_update_file_ok (s : DriveState) (parent : ItemMeta) (fname : String)
    (h : s.dryRun = false) :
    ∃ m s', create_or_update_file s parent fname = .ok (m, s') ∧ s'.dryRun = false := by
  unfold create_or_update_file get_file
  cases s.items.find? (fileQueryMatch parent.id fname) with
  | some it =>
    refine ⟨⟨it.id, it.name⟩,
      { s with trace := (s.trace ++ [.listCall false parent.id fname])
          ++ [.updateFile it.id] }, ?_, h⟩
    simp [call_update, h]
  | none =>
    refine ⟨⟨freshId s, fname⟩,
      { s with items := s.items ++ [⟨freshId s, fname, parent.id, false, false⟩],
               nextId := s.nextId + 1,
               trace := (s.trace ++ [.listCall false parent.id fname])
                 ++ [.createFile parent.id fname] }, ?_, h⟩
    simp [call_create_file, h, freshId]

theorem uploadToRel_ok (folder : ItemMeta) (rel : List String) (fname : String)
    (s : DriveState) (h : s.dryRun = false) :
    ∃ s', uploadToRel folder rel fname s = .ok s' ∧ s'.dryRun = false := by
  obtain ⟨parent, s1, hg⟩ : ∃ p s1, get_or_create_subfolders s folder rel = (p, s1) :=
    ⟨_, _, rfl⟩
  have h1 : s1.dryRun = false := by
    have hd := (gOCS_ext rel s folder h).2
    rw [hg] at hd
    exact hd
  obtain ⟨m, s2, hc, h2⟩ := create_or_update_file_ok s1 parent fname h1
  refine ⟨s2, ?_, h2⟩
  unfold uploadToRel
  rw [hg]
  simp [hc, Except.bind]

theorem foldl_upload_ok (folder : ItemMeta) (r0 : List String) :
    ∀ (l : List (List String × String)) (s : DriveState), s.dryRun = false →
    ∃ s', l.foldlM (fun st df => uploadToRel folder (r0 ++ df.1) df.2 st) s = .ok s'
      ∧ s'.dryRun = false := by
  intro l
  induction l with
  | nil =>
    intro s h
    exact ⟨s, rfl, h⟩
  | cons df rest ih =>
    intro s h
    obtain ⟨s1, h1, h1d⟩ := uploadToRel_ok folder (r0 ++ df.1) df.2 s h
    obtain ⟨s', h2, h2d⟩ := ih s1 h1d
    refine ⟨s', ?_, h2d⟩
    rw [List.foldlM_cons, h1]
    simpa using h2

/-- C7: `upload_hierarchy` starts at `local_root / local_rel_directory`
(the subdirectory itself when absolute; `joinPath` is exactly that rule),
and — provided the start directory lies under `local_root`, so that its
path is relative to it via `r0` — it performs exactly one upload per
regular file of the tree, each to the folder chain resolved from the
file's containing directory's path relative to `local_root`; in a
non-dry-run state the whole walk succeeds. -/
theorem upload_hierarchy_visits_each_file_once (s : DriveState) (local_root : PyPath)
    (folder : ItemMeta) (rel : Option PyPath) (tree : FsTree) (r0 : List String)
    (hdry : s.dryRun = false)
    (hrel : relative_to (joinPath local_root (rel.getD ⟨false, []⟩)) local_root
      = .ok r0) :
    upload_hierarchy s local_root folder rel tree
      = (treeFiles tree).foldlM (fun st df => uploadToRel folder (r0 ++ df.1) df.2 st) s
    ∧ ∃ s', upload_hierarchy s local_root folder rel tree = .ok s' := by
  have h1 := walk_foldlM_eq tree local_root (joinPath local_root (rel.getD ⟨false, []⟩))
    folder r0 s hrel
  have hmain : upload_hierarchy s local_root folder rel tree
      = (treeFiles tree).foldlM
        (fun st df => uploadToRel folder (r0 ++ df.1) df.2 st) s := by
    unfold upload_hierarchy
    exact h1
  refine ⟨hmain, ?_⟩
  obtain ⟨s', hok, _⟩ := foldl_upload_ok folder r0 (treeFiles tree) s hdry
  exact ⟨s', by rw [hmain, hok]⟩

/-- Witness for C7: uploading the tree `{"f.txt", "a/g.txt"}` from an
absolute root with no relative subdirectory. -/
theorem upload_hierarchy_visits_each_file_once_witness :
    (upload_hierarchy ⟨[], 0, [], false, []⟩ ⟨true, ["r"]⟩ ⟨"P", "root"⟩ none
        (.node [("a", .node [] ["g.txt"])] ["f.txt"])
      = (treeFiles (.node [("a", .node [] ["g.txt"])] ["f.txt"])).foldlM
        (fun st df => uploadToRel ⟨"P", "root"⟩ ([] ++ df.1) df.2 st)
        ⟨[], 0, [], false, []⟩
    ∧ ∃ s', upload_hierarchy ⟨[], 0, [], false, []⟩ ⟨true, ["r"]⟩ ⟨"P", "root"⟩ none
        (.node [("a", .node [] ["g.txt"])] ["f.txt"]) = .ok s') :=
  upload_hierarchy_visits_each_file_once ⟨[], 0, [], false, []⟩ ⟨true, ["r"]⟩
    ⟨"P", "root"⟩ none (.node [("a", .node [] ["g.txt"])] ["f.txt"]) [] rfl rfl

end ErScarecrow
